import Mathlib

/-!
Shallow embedding of `scripts/spec-kit/nightly_sync_detect.py`, the nightly
sync drift detector.  Strings are modelled as `List Char` (`Str`); the memory
export is a list of raw lines; JSON parsing of a line (Python's `json.loads`,
a standard-library call) is abstracted as an oracle `Str → Option PyRecord`;
the filesystem walk (`Path.rglob` plus `relative_path`) is abstracted as the
list of repo-relative POSIX paths of the regular files under the evidence
root.  Everything downstream of those boundaries is translated directly from
the Python source.
-/

set_option maxRecDepth 4000

abbrev Str := List Char

/-- `str(EVIDENCE_ROOT_DEFAULT)`: the evidence root rendered as a string
(`Path` keeps the relative POSIX form verbatim). -/
def rootStr : String := "docs/SPEC-OPS-004-integrated-coder-hooks/evidence/commands"

def evidenceRoot : Str := rootStr.toList

/-- The literal part of `EVIDENCE_REGEX`: the evidence root followed by `/`. -/
def matchLit : Str := evidenceRoot ++ ['/']

/-- The character class `[\\w./\\-]` of `EVIDENCE_REGEX`.  The pattern is a
Python *raw* string, so `\\` denotes one literal backslash at the regex level:
the class therefore contains exactly backslash, the letter `w`, `.`, `/`
and `-` (NOT the word class `\w`). -/
def classChar (c : Char) : Bool :=
  c = '\\' || c = 'w' || c = '.' || c = '/' || c = '-'

/-- One left-to-right pass of `EVIDENCE_REGEX.finditer`: at each position the
fixed literal must match, followed greedily by one or more class characters;
matches are non-overlapping and scanning resumes after each match.  The `Nat`
argument is the number of characters still to skip after an emitted match. -/
def scanStr : Str → Nat → List Str
  | [], _ => []
  | _ :: cs, Nat.succ k => scanStr cs k
  | c :: cs, 0 =>
    if matchLit.isPrefixOf (c :: cs) then
      let after := (c :: cs).drop matchLit.length
      let run := after.takeWhile classChar
      if run.isEmpty then scanStr cs 0
      else (matchLit ++ run) :: scanStr cs (matchLit.length + run.length - 1)
    else scanStr cs 0

/-- All matches of `EVIDENCE_REGEX.finditer(content)`, in order. -/
def findMatches (s : Str) : List Str := scanStr s 0

/-- Python `str.isspace` restricted to the ASCII whitespace characters used
by `str.strip()` (space, tab, newline, carriage return, vertical tab, form
feed); inputs in scope are ASCII. -/
def isPySpace (c : Char) : Bool :=
  c = ' ' || c = '\t' || c = '\n' || c = '\r' || c = Char.ofNat 11 || c = Char.ofNat 12

/-- Python `s.strip(chars)` / `s.strip()`: drop characters satisfying `p`
from both ends. -/
def stripWhile (p : Char → Bool) (l : Str) : Str :=
  ((l.dropWhile p).reverse.dropWhile p).reverse

/-- Python `s.rstrip(chars)`: drop characters satisfying `p` from the right
end only. -/
def rstripWhile (p : Char → Bool) (l : Str) : Str :=
  (l.reverse.dropWhile p).reverse

/-- The two characters of `strip("\x60\x22")` in `normalise_path`: backtick
and double quote. -/
def isQuoteChar (c : Char) : Bool :=
  c = Char.ofNat 96 || c = Char.ofNat 34

/-- The five characters of `rstrip(").,:;")` in `normalise_path`. -/
def isPunctChar (c : Char) : Bool :=
  c = ')' || c = '.' || c = ',' || c = ':' || c = ';'

/-- `normalise_path(raw)`:
`raw.strip().strip("\x60\x22").rstrip(").,:;").replace("\\", "/")`, then
`None` if empty or not starting with the evidence root. -/
def normalise_path (raw : Str) : Option Str :=
  let p := rstripWhile isPunctChar (stripWhile isQuoteChar (stripWhile isPySpace raw))
  let p := p.map (fun c => if c = '\\' then '/' else c)
  if p.isEmpty then none
  else if evidenceRoot.isPrefixOf p then some p
  else none

/-- `Path(path).parts` for the relative POSIX paths in scope: split on `/`,
collapsing empty components and single-dot components. -/
def pathParts (p : Str) : List Str :=
  (p.splitOn '/').filter (fun s => !s.isEmpty && s ≠ ['.'])

def cmdLit : Str := "commands".toList

def specLit : Str := "SPEC-".toList

def upperStr (s : Str) : Str := s.map Char.toUpper

/-- The loop of `extract_spec_id`: walk the segments; whenever a segment
equals `"commands"` and a next segment exists whose uppercasing starts with
`"SPEC-"`, return that next segment verbatim; otherwise keep walking. -/
def extractSpecIdParts : List Str → Option Str
  | p :: q :: rest =>
    if p == cmdLit && specLit.isPrefixOf (upperStr q) then some q
    else extractSpecIdParts (q :: rest)
  | _ => none

/-- `extract_spec_id(path)`. -/
def extract_spec_id (p : Str) : Option Str :=
  extractSpecIdParts (pathParts p)

def GLOBAL_SPEC : Str := "GLOBAL".toList

/-- The shared spec-filter guard
`if spec_filter and (spec_id is None or spec_id not in spec_filter)`:
an empty filter (Python `None` or empty set, both falsy) passes everything;
otherwise the id must be present (exact, case-sensitive membership) and not
`None`.  Returns `true` when the path is kept. -/
def passesFilter (specFilter : List Str) (sid : Option Str) : Bool :=
  if specFilter.isEmpty then true
  else
    match sid with
    | none => false
    | some i => specFilter.contains i

/-- One parsed memory-export record (`json.loads` of a non-blank line):
the `id`, `slug` and `content` fields, each possibly absent.  Lines whose
JSON is not an object with a string `content`, when present, are outside the
modelled domain. -/
structure PyRecord where
  rid : Option Str
  slug : Option Str
  content : Option Str
deriving Repr, DecidableEq

/-- The `MemoryReference` dataclass. -/
structure MemoryReference where
  memory_id : Option Str
  slug : Option Str
  summary : Str
deriving Repr, DecidableEq

/-- The `references` dict (`Dict[str, List[MemoryReference]]`), an
insertion-ordered association list, as Python dicts are. -/
abbrev RefIndex := List (Str × List MemoryReference)

/-- `references.setdefault(path, []).append(ref)`: append to the entry of an
existing key, else add a new key at the end. -/
def indexAdd (idx : RefIndex) (path : Str) (ref : MemoryReference) : RefIndex :=
  match idx with
  | [] => [(path, [ref])]
  | (k, v) :: rest =>
    if k == path then (k, v ++ [ref]) :: rest
    else (k, v) :: indexAdd rest path ref

/-- The per-record `seen` set loop: keep the first occurrence of each path,
in order. -/
def dedupAux (seen : List Str) : List Str → List Str
  | [] => []
  | x :: xs => if seen.contains x then dedupAux seen xs else x :: dedupAux (x :: seen) xs

def dedupFirst (l : List Str) : List Str := dedupAux [] l

/-- The `matches` loop body of `collect_memory_references`: for each regex
match, normalise; drop if rejected; drop if an active spec filter excludes
its spec id. -/
def recordMatches (specFilter : List Str) (content : Str) : List Str :=
  (findMatches content).filterMap (fun m =>
    match normalise_path m with
    | none => none
    | some normalised =>
      if passesFilter specFilter (extract_spec_id normalised) then some normalised
      else none)

/-- `content[:200].replace("\n", " ")` packed with the record's identifiers
into a `MemoryReference`. -/
def mkRef (record : PyRecord) (content : Str) : MemoryReference :=
  ⟨record.rid, record.slug, (content.take 200).map (fun c => if c = '\n' then ' ' else c)⟩

/-- The operational failures of the run: the two `FileNotFoundError`s and the
`ValueError` raised on a malformed export line (carrying the 1-based line
number interpolated into its message). -/
inductive RunError where
  | memoryNotFound
  | evidenceNotFound
  | invalidJson (line : Nat)
deriving Repr, DecidableEq

/-- The message of the malformed-line `ValueError`,
`f"Invalid JSON on line \x7bidx\x7d: ..."` (the parser-specific suffix after
the number is not modelled). -/
def errorMessage : RunError → Str
  | .memoryNotFound => "Memory export not found".toList
  | .evidenceNotFound => "Evidence directory not found".toList
  | .invalidJson i => "Invalid JSON on line ".toList ++ Nat.toDigits 10 i

/-- The line loop of `collect_memory_references`: `n` is the 1-based number
of the next raw line (blank lines are numbered but not counted), `idx` and
`scanned` the accumulators. -/
def collectAux (parse : Str → Option PyRecord) (sf : List Str) :
    List Str → Nat → RefIndex → Nat → Except RunError (RefIndex × Nat)
  | [], _, idx, scanned => .ok (idx, scanned)
  | rawLine :: rest, n, idx, scanned =>
    let line := stripWhile isPySpace rawLine
    if line.isEmpty then collectAux parse sf rest (n + 1) idx scanned
    else
      match parse line with
      | none => .error (.invalidJson n)
      | some record =>
        let content := record.content.getD []
        let ms := recordMatches sf content
        if ms.isEmpty then collectAux parse sf rest (n + 1) idx (scanned + 1)
        else
          collectAux parse sf rest (n + 1)
            (dedupFirst ms |>.foldl (fun acc p => indexAdd acc p (mkRef record content)) idx)
            (scanned + 1)

/-- `collect_memory_references(memory_jsonl, spec_filter)` over the export's
raw lines (the file is assumed readable; its existence check lives in
`build_report` below). -/
def collect_memory_references (parse : Str → Option PyRecord) (sf : List Str)
    (lines : List Str) : Except RunError (RefIndex × Nat) :=
  collectAux parse sf lines 1 [] 0

/-- `collect_evidence_files(evidence_root, repo_root, spec_filter)`: the
`rglob` walk and `relative_path` are abstracted as the input list `fs` of
repo-relative POSIX file paths; the function filters by spec id and returns
the resulting set (a duplicate-free list; real walks never repeat a path). -/
def collect_evidence_files (fs : List Str) (sf : List Str) : List Str :=
  dedupFirst (fs.filter (fun p => passesFilter sf (extract_spec_id p)))

/-- Split a glob character-class body at its first `]`, returning the
contents before it and the remainder of the pattern after it. -/
def splitAtClose : Str → Option (Str × Str)
  | [] => none
  | c :: rest =>
    if c = ']' then some ([], rest)
    else (splitAtClose rest).map (fun pr => (c :: pr.1, pr.2))

theorem splitAtClose_length {s a b : Str} (h : splitAtClose s = some (a, b)) :
    b.length < s.length := by
  induction s generalizing a b with
  | nil => simp [splitAtClose] at h
  | cons c rest ih =>
    simp only [splitAtClose] at h
    split at h
    · cases h; simp
    · cases hrec : splitAtClose rest with
      | none => rw [hrec] at h; simp at h
      | some pr =>
        rw [hrec] at h
        cases h
        have := ih (a := pr.1) (b := pr.2) (by rw [hrec])
        simp; omega

/-- Parse the remainder after a `[` the way `fnmatch.translate` does: an
optional leading `!` negates; a `]` right after that is a literal member;
the class ends at the next `]`; `none` when there is no closing `]` (the
`[` is then a literal character). -/
def parseClass (ps : Str) : Option (Bool × Str × Str) :=
  match ps with
  | '!' :: ']' :: u => (splitAtClose u).map (fun pr => (true, ']' :: pr.1, pr.2))
  | '!' :: t => (splitAtClose t).map (fun pr => (true, pr.1, pr.2))
  | ']' :: u => (splitAtClose u).map (fun pr => (false, ']' :: pr.1, pr.2))
  | _ => (splitAtClose ps).map (fun pr => (false, pr.1, pr.2))

theorem splitMap_length {t : Str} {g : Str × Str → Bool × Str × Str} {n : Bool} {a b : Str}
    (hg : ∀ pr, (g pr).2.2 = pr.2)
    (h : (splitAtClose t).map g = some (n, a, b)) : b.length < t.length := by
  cases hrec : splitAtClose t with
  | none => rw [hrec] at h; simp at h
  | some pr =>
    rw [hrec] at h
    simp at h
    have h2 := congrArg (fun x => x.2.2) h
    simp only at h2
    rw [hg] at h2
    exact h2 ▸ splitAtClose_length hrec

theorem parseClass_length {ps : Str} {n : Bool} {a b : Str}
    (h : parseClass ps = some (n, a, b)) : b.length < ps.length := by
  unfold parseClass at h
  split at h
  all_goals
    have := splitMap_length (fun pr => rfl) h
  all_goals simp only [List.length_cons] at this ⊢
  all_goals omega

/-- Membership of a character in a class body, with `x-y` ranges compared by
code point (a reversed range matches nothing; a `-` that is first or last in
the body is a literal), as `fnmatch.translate` produces. -/
def classMatch : Str → Char → Bool
  | a :: '-' :: b :: rest, c =>
    (a.toNat ≤ c.toNat && c.toNat ≤ b.toNat) || classMatch rest c
  | a :: rest, c => a = c || classMatch rest c
  | [], _ => false

/-- `fnmatch.fnmatch(name, pattern)` on POSIX (no case folding): `*` matches
any run of characters, `?` any single character, `[...]` a character class,
anything else is literal; the pattern must consume the whole name. -/
def globMatch : Str → Str → Bool
  | [], s => s.isEmpty
  | '*' :: ps, [] => globMatch ps []
  | '*' :: ps, c :: s' => globMatch ps (c :: s') || globMatch ('*' :: ps) s'
  | '[' :: ps, s =>
    match hpc : parseClass ps with
    | none =>
      match s with
      | [] => false
      | c :: s' => c = '[' && globMatch ps s'
    | some (neg, contents, restPat) =>
      match s with
      | [] => false
      | c :: s' => (neg != classMatch contents c) && globMatch restPat s'
  | '?' :: _, [] => false
  | '?' :: ps, _ :: s' => globMatch ps s'
  | _ :: _, [] => false
  | p :: ps, c :: s' => p = c && globMatch ps s'
termination_by p s => p.length + s.length
decreasing_by
  all_goals simp_all
  all_goals try omega
  · have := parseClass_length hpc
    omega

/-- `is_allowed(path, patterns)`. -/
def is_allowed (path : Str) (patterns : List Str) : Bool :=
  let sid := (extract_spec_id path).getD GLOBAL_SPEC
  patterns.any (fun pattern => globMatch pattern path || globMatch pattern sid)

/-- Python string `<`: lexicographic comparison by code point. -/
def strLt : Str → Str → Bool
  | _, [] => false
  | [], _ :: _ => true
  | a :: as, b :: bs =>
    if a.toNat < b.toNat then true
    else if b.toNat < a.toNat then false
    else strLt as bs

/-- Insert into an ascending list (used to model Python `sorted`). -/
def insertSortedStr (x : Str) : List Str → List Str
  | [] => [x]
  | y :: ys => if strLt y x then y :: insertSortedStr x ys else x :: y :: ys

/-- `sorted(...)` over path strings. -/
def sortStrs (l : List Str) : List Str := l.foldr insertSortedStr []

/-- Insert into a key-ascending association list. -/
def insertSortedKV (x : Str × List MemoryReference) : RefIndex → RefIndex
  | [] => [x]
  | y :: ys => if strLt y.1 x.1 then y :: insertSortedKV x ys else x :: y :: ys

/-- `sorted(references.items())`: keys are distinct, so tuple comparison is
comparison of the path keys. -/
def sortIndex (l : RefIndex) : RefIndex := l.foldr insertSortedKV []

/-- One entry of the report's `missing_memory` list. -/
structure MissingMemoryItem where
  path : Str
  spec : Str
deriving Repr, DecidableEq

/-- One entry of a `missing_evidence` entry's `memories` list. -/
structure MemorySummaryItem where
  id : Option Str
  slug : Option Str
  summary : Str
deriving Repr, DecidableEq

/-- One entry of the report's `missing_evidence` list. -/
structure MissingEvidenceItem where
  path : Str
  spec : Str
  memories : List MemorySummaryItem
deriving Repr, DecidableEq

/-- The report's `stats` object. -/
structure ReportStats where
  memory_entries_scanned : Nat
  memory_reference_paths : Nat
  memory_reference_count : Nat
  evidence_files_scanned : Nat
  allowlist_size : Nat
  spec_filter : List Str
deriving Repr, DecidableEq

/-- The report dictionary assembled by `build_report`. -/
structure DriftReport where
  drift_detected : Bool
  missing_memory : List MissingMemoryItem
  missing_evidence : List MissingEvidenceItem
  stats : ReportStats
deriving Repr, DecidableEq

def refKeys (idx : RefIndex) : List Str := idx.map Prod.fst

/-- The pure tail of `build_report`: the two drift lists and the stats,
computed from the reference index, the scan count, the evidence set, the
spec filter and the allowlist. -/
def buildReportCore (references : RefIndex) (entriesScanned : Nat)
    (evidenceFiles : List Str) (sf allowlist : List Str) : DriftReport :=
  let missingMemory := (sortStrs evidenceFiles).filterMap (fun path =>
    if (refKeys references).contains path || is_allowed path allowlist then none
    else some ⟨path, (extract_spec_id path).getD GLOBAL_SPEC⟩)
  let missingEvidence := (sortIndex references).filterMap (fun kv =>
    if evidenceFiles.contains kv.1 || is_allowed kv.1 allowlist then none
    else some ⟨kv.1, (extract_spec_id kv.1).getD GLOBAL_SPEC,
      kv.2.map (fun r => ⟨r.memory_id, r.slug, r.summary⟩)⟩)
  { drift_detected := !missingMemory.isEmpty || !missingEvidence.isEmpty
    missing_memory := missingMemory
    missing_evidence := missingEvidence
    stats :=
      { memory_entries_scanned := entriesScanned
        memory_reference_paths := references.length
        memory_reference_count := (references.map (fun kv => kv.2.length)).sum
        evidence_files_scanned := evidenceFiles.length
        allowlist_size := allowlist.length
        spec_filter := if sf.isEmpty then [] else sortStrs sf } }

/-- `build_report`: collect the references (raising on a missing export or a
malformed line), then the evidence files (raising on a missing root), then
assemble the report. -/
def build_report (parse : Str → Option PyRecord) (memExists : Bool)
    (memLines : List Str) (fsExists : Bool) (fs : List Str)
    (sf allowlist : List Str) : Except RunError DriftReport :=
  if !memExists then .error .memoryNotFound
  else
    match collect_memory_references parse sf memLines with
    | .error e => .error e
    | .ok collected =>
      if !fsExists then .error .evidenceNotFound
      else .ok (buildReportCore collected.1 collected.2 (collect_evidence_files fs sf) sf allowlist)

/-- `main()`: uppercase and deduplicate the repeatable `--spec` arguments,
run `build_report`; on an operational failure print the error and exit 2
with no report; otherwise emit the report (human and JSON) and exit 1 when
drift was detected, 0 otherwise.  The returned pair is the exit status and
the emitted report, if any. -/
def runMain (parse : Str → Option PyRecord) (memExists : Bool)
    (memLines : List Str) (fsExists : Bool) (fs : List Str)
    (specArgs allowlist : List Str) : Nat × Option DriftReport :=
  let sf := dedupFirst (specArgs.map upperStr)
  match build_report parse memExists memLines fsExists fs sf allowlist with
  | .error _ => (2, none)
  | .ok report => (if report.drift_detected then 1 else 0, some report)

def lbraceChar : Char := Char.ofNat 123

def rbraceChar : Char := Char.ofNat 125

def dquoteChar : Char := Char.ofNat 34

def hexDigitChar (n : Nat) : Char :=
  if n < 10 then Char.ofNat (48 + n) else Char.ofNat (87 + n)

def hex4 (n : Nat) : Str :=
  [hexDigitChar (n / 4096 % 16), hexDigitChar (n / 256 % 16),
   hexDigitChar (n / 16 % 16), hexDigitChar (n % 16)]

/-- `json.dumps` escaping of one character (default `ensure_ascii=True`):
quote, backslash and the named control shortcuts get two-character escapes,
all other characters outside printable ASCII get `\uXXXX` escapes (a
surrogate pair beyond the basic plane). -/
def escapeChar (c : Char) : Str :=
  if c = dquoteChar then ['\\', dquoteChar]
  else if c = '\\' then ['\\', '\\']
  else if c = '\n' then ['\\', 'n']
  else if c = '\t' then ['\\', 't']
  else if c = '\r' then ['\\', 'r']
  else if c = Char.ofNat 8 then ['\\', 'b']
  else if c = Char.ofNat 12 then ['\\', 'f']
  else if 32 ≤ c.toNat && c.toNat ≤ 126 then [c]
  else if c.toNat < 65536 then '\\' :: 'u' :: hex4 c.toNat
  else
    ('\\' :: 'u' :: hex4 (55296 + (c.toNat - 65536) / 1024)) ++
      ('\\' :: 'u' :: hex4 (56320 + (c.toNat - 65536) % 1024))

def jsonOfStr (s : Str) : Str :=
  dquoteChar :: s.foldr (fun c acc => escapeChar c ++ acc) [dquoteChar]

def jsonOfOptStr : Option Str → Str
  | none => "null".toList
  | some s => jsonOfStr s

def jsonOfBool : Bool → Str
  | true => "true".toList
  | false => "false".toList

def jsonOfNat (n : Nat) : Str := Nat.toDigits 10 n

def jsonArray (xs : List Str) : Str :=
  '[' :: (List.intercalate [','] xs) ++ [']']

/-- A JSON object with compact separators; callers list the fields already
in sorted key order, mirroring `json.dumps(..., separators=(",", ":"),
sort_keys=True)`. -/
def jsonObj (fields : List (String × Str)) : Str :=
  lbraceChar ::
    (List.intercalate [','] (fields.map (fun kv => jsonOfStr kv.1.toList ++ ':' :: kv.2)))
      ++ [rbraceChar]

def jsonOfSummary (m : MemorySummaryItem) : Str :=
  jsonObj [("id", jsonOfOptStr m.id), ("slug", jsonOfOptStr m.slug),
    ("summary", jsonOfStr m.summary)]

def jsonOfMissingMemory (m : MissingMemoryItem) : Str :=
  jsonObj [("path", jsonOfStr m.path), ("spec", jsonOfStr m.spec)]

def jsonOfMissingEvidence (m : MissingEvidenceItem) : Str :=
  jsonObj [("memories", jsonArray (m.memories.map jsonOfSummary)),
    ("path", jsonOfStr m.path), ("spec", jsonOfStr m.spec)]

def jsonOfStats (s : ReportStats) : Str :=
  jsonObj [("allowlist_size", jsonOfNat s.allowlist_size),
    ("evidence_files_scanned", jsonOfNat s.evidence_files_scanned),
    ("memory_entries_scanned", jsonOfNat s.memory_entries_scanned),
    ("memory_reference_count", jsonOfNat s.memory_reference_count),
    ("memory_reference_paths", jsonOfNat s.memory_reference_paths),
    ("spec_filter", jsonArray (s.spec_filter.map jsonOfStr))]

/-- The payload of `emit_json_report` in the default compact mode:
`json.dumps(report, separators=(",", ":"), sort_keys=True)`. -/
def reportJson (r : DriftReport) : Str :=
  jsonObj [("drift_detected", jsonOfBool r.drift_detected),
    ("missing_evidence", jsonArray (r.missing_evidence.map jsonOfMissingEvidence)),
    ("missing_memory", jsonArray (r.missing_memory.map jsonOfMissingMemory)),
    ("stats", jsonOfStats r.stats)]

/-- The serialized JSON report a run prints (and optionally writes), `none`
when the run fails before reporting. -/
def runMainJson (parse : Str → Option PyRecord) (memExists : Bool)
    (memLines : List Str) (fsExists : Bool) (fs : List Str)
    (specArgs allowlist : List Str) : Option Str :=
  (runMain parse memExists memLines fsExists fs specArgs allowlist).2.map reportJson

def c1Content : Str := ("See " ++ rootStr ++ "/SPEC-1/a.json for details").toList

/-- C1: the claim says reference extraction finds spans of the evidence-root
prefix followed by one or more characters from letters, digits, `.`, `/`,
`-`, `_`, and in particular that a content citing
`docs/SPEC-OPS-004-integrated-coder-hooks/evidence/commands/SPEC-1/a.json`
yields that path as a candidate span.  The code's character class (a doubled
backslash inside a raw string) contains only backslash, `w`, `.`, `/`, `-`,
so `S` cannot follow the prefix and the scan of that very content yields no
candidate span at all. -/
theorem c1_extraction_misses_cited_path : findMatches c1Content = [] := by decide

def c2Path : Str := (rootStr ++ "/SPEC-1/a.json").toList

def c2Line : Str :=
  ("\x7b\x22id\x22: \x22m1\x22, \x22content\x22: \x22" ++ rootStr ++ "/SPEC-1/a.json\x22\x7d").toList

def c2Parse : Str → Option PyRecord := fun s =>
  if s = c2Line then some ⟨some "m1".toList, none, some c2Path⟩ else none

/-- C2: on the claim's scenario (one record citing `.../commands/SPEC-1/a.json`,
the evidence root holding exactly that file, no allowlist, no filter) the
claim expects `drift_detected = false`, empty drift lists and
`memory_reference_paths = 1`; because the extraction regex never matches the
citation (see C1) the code instead reports drift, lists the file as missing
from memory, counts zero referenced paths, and exits 1. -/
theorem c2_scenario_one_reports_drift :
    runMain c2Parse true [c2Line] true [c2Path] [] [] =
      (1, some
        { drift_detected := true
          missing_memory := [⟨c2Path, "SPEC-1".toList⟩]
          missing_evidence := []
          stats :=
            { memory_entries_scanned := 1, memory_reference_paths := 0,
              memory_reference_count := 0, evidence_files_scanned := 1,
              allowlist_size := 0, spec_filter := [] } }) := by decide

def c5Path : Str := (rootStr ++ "/spec-1/a.json").toList

/-- C5: the claim says spec-filter membership is case-insensitive, so a path
whose derived spec id is `spec-1` is retained under the filter entry
`SPEC-1`.  `main` uppercases the filter entries but the derived id keeps its
original case and membership is exact, so the evidence scan discards the
path: the evidence set for this one-file snapshot comes out empty. -/
theorem c5_filter_membership_is_case_sensitive :
    extract_spec_id c5Path = some "spec-1".toList ∧
    collect_evidence_files [c5Path] ["SPEC-1".toList] = [] := by decide

def c3Raw : Str := ("." ++ rootStr ++ "/SPEC-1/a").toList

/-- Follows the C3 claim's words, not the source: whitespace AND the whole
punctuation set (backtick, double quote, `)`, `.`, `,`, `:`, `;`) trimmed
from BOTH ends, then backslashes converted, then the emptiness/prefix
check. -/
def normalisePathClaimed (raw : Str) : Option Str :=
  let p := stripWhile (fun c => isPySpace c || isQuoteChar c || isPunctChar c) raw
  let p := p.map (fun c => if c = '\\' then '/' else c)
  if p.isEmpty then none
  else if evidenceRoot.isPrefixOf p then some p
  else none

/-- C3 counterexample: on a span with one leading `.`, trimming the
punctuation from both ends (the claim) leaves a path that starts with the
evidence root, so the claim predicts a successful normalisation; the code
strips `).,:;` from the right end only, keeps the leading dot, and rejects
the span. -/
theorem c3_counterexample_leading_dot :
    normalise_path c3Raw = none ∧
    normalisePathClaimed c3Raw = some ((rootStr ++ "/SPEC-1/a").toList) := by decide

def c4Path : Str := (rootStr ++ "/x/commands/SPEC-9/a.json").toList

/-- Follows the C4 claim's words, not the source: locate THE segment
literally equal to `"commands"` (the first one); the spec id is defined only
when its immediate successor exists and, uppercased, starts with `"SPEC-"`. -/
def extractSpecIdClaimed (p : Str) : Option Str :=
  match (pathParts p).dropWhile (fun s => !(s == cmdLit)) with
  | _ :: q :: _ => if specLit.isPrefixOf (upperStr q) then some q else none
  | _ => none

/-- C4 counterexample: in
`docs/.../evidence/commands/x/commands/SPEC-9/a.json` the segment after the
first `"commands"` is `x`, so the claim attributes the reserved `GLOBAL` id;
the code keeps scanning past the first `"commands"` and attributes
`SPEC-9`. -/
theorem c4_counterexample_second_commands :
    (extract_spec_id c4Path).getD GLOBAL_SPEC = "SPEC-9".toList ∧
    (extractSpecIdClaimed c4Path).getD GLOBAL_SPEC = GLOBAL_SPEC := by decide

/-- Remove the maximal trailing run of characters satisfying `p` (the
amended claim's description of a right-end-only trim), by direct
recursion. -/
def dropTrailing (p : Char → Bool) : Str → Str
  | [] => []
  | c :: cs =>
    match dropTrailing p cs with
    | [] => if p c then [] else [c]
    | r => c :: r

theorem dropTrailing_eq (p : Char → Bool) (l : Str) :
    dropTrailing p l = (l.reverse.dropWhile p).reverse := by
  induction l with
  | nil => rfl
  | cons c cs ih =>
    rcases h : dropTrailing p cs with _ | ⟨d, ds⟩
    · have h2 : cs.reverse.dropWhile p = [] := by
        have := ih
        rw [h] at this
        simpa using this.symm
      simp only [dropTrailing, h, List.reverse_cons, List.dropWhile_append, h2]
      by_cases hc : p c <;> simp [List.dropWhile, hc]
    · have h2 := ih
      rw [h] at h2
      have hne : cs.reverse.dropWhile p ≠ [] := by
        intro hx
        rw [hx] at h2
        simp at h2
      simp only [dropTrailing, h, List.reverse_cons, List.dropWhile_append]
      rw [if_neg (by simpa [List.isEmpty_iff] using hne)]
      simp [h2]

/-- The trimmed, slash-converted span that `normalise_path` decides on. -/
def trimmedSpan (raw : Str) : Str :=
  (rstripWhile isPunctChar (stripWhile isQuoteChar (stripWhile isPySpace raw))).map
    (fun c => if c = '\\' then '/' else c)

/-- Follows the amended C3 claim's words: whitespace trimmed from both ends,
then backtick and double quote trimmed from both ends, then `)`, `.`, `,`,
`:`, `;` removed from the right end only, then backslashes converted; no
match exactly when the result is empty or lacks the evidence-root prefix. -/
def normalisePathAmended (raw : Str) : Option Str :=
  let t1 := dropTrailing isPySpace (raw.dropWhile isPySpace)
  let t2 := dropTrailing isQuoteChar (t1.dropWhile isQuoteChar)
  let t3 := dropTrailing isPunctChar t2
  let p := t3.map (fun c => if c = '\\' then '/' else c)
  if p.isEmpty then none
  else if evidenceRoot.isPrefixOf p then some p
  else none

theorem noneCharacterisation (q : Str) :
    ((if q.isEmpty then none else if evidenceRoot.isPrefixOf q then some q else none) = none ↔
      q = [] ∨ evidenceRoot.isPrefixOf q = false) := by
  by_cases h1 : q.isEmpty
  · simp [List.isEmpty_iff.mp h1]
  · rw [if_neg h1]
    by_cases h2 : evidenceRoot.isPrefixOf q
    · rw [if_pos h2]
      constructor
      · intro hx
        cases hx
      · rintro (hx | hx)
        · exact absurd (List.isEmpty_iff.mpr hx) h1
        · rw [h2] at hx
          cases hx
    · rw [if_neg h2]
      have h2f : evidenceRoot.isPrefixOf q = false := by
        revert h2
        cases evidenceRoot.isPrefixOf q <;> simp
      simp [h2f]

/-- C3 (amended): `normalise_path` trims whitespace, then backtick and
double quote, from both ends, but the punctuation set `)`, `.`, `,`, `:`,
`;` from the right end only; it converts every backslash to a forward slash,
and returns no match exactly when the trimmed result is empty or does not
start with the evidence-root prefix (it is a total function — never an
exception). -/
theorem c3_normalise_path_right_trim (raw : Str) :
    normalise_path raw = normalisePathAmended raw ∧
    (normalise_path raw = none ↔
      trimmedSpan raw = [] ∨ evidenceRoot.isPrefixOf (trimmedSpan raw) = false) := by
  constructor
  · simp only [normalise_path, normalisePathAmended, dropTrailing_eq, stripWhile, rstripWhile]
  · exact noneCharacterisation (trimmedSpan raw)

/-- Follows the amended C4 claim's words: scanning adjacent segment pairs
left to right, the spec id is the second element of the first pair whose
first element is literally `"commands"` and whose second, uppercased, starts
with `"SPEC-"`; absent (hence `GLOBAL`) when no such pair exists. -/
def extractSpecIdAmended (p : Str) : Option Str :=
  (((pathParts p).zip (pathParts p).tail).find? fun pr =>
      pr.1 == cmdLit && specLit.isPrefixOf (upperStr pr.2)).map Prod.snd

theorem extractSpecIdParts_eq_pairScan (l : List Str) :
    extractSpecIdParts l =
      ((l.zip l.tail).find? fun pr =>
        pr.1 == cmdLit && specLit.isPrefixOf (upperStr pr.2)).map Prod.snd := by
  induction l with
  | nil => rfl
  | cons a t ih =>
    cases t with
    | nil => rfl
    | cons b m =>
      simp only [List.tail_cons] at ih
      simp only [List.tail_cons, List.zip_cons_cons]
      by_cases hab : (a == cmdLit && specLit.isPrefixOf (upperStr b)) = true
      · rw [List.find?_cons_of_pos _ (by simpa using hab)]
        simp only [extractSpecIdParts, if_pos hab]
        simp
      · rw [List.find?_cons_of_neg _ (by simpa using hab)]
        simp only [extractSpecIdParts, if_neg hab]
        exact ih

/-- C4 (amended): the spec id attributed to a path is the segment following
the FIRST `"commands"` segment whose successor exists and, case-insensitively,
starts with `"SPEC-"` (scanning left to right, returned verbatim), and the
reserved `GLOBAL` constant when no such commands/SPEC- pair exists — not the
successor of the first `"commands"` segment alone. -/
theorem c4_spec_id_first_matching_pair (p : Str) :
    extract_spec_id p = extractSpecIdAmended p ∧
    (extract_spec_id p).getD GLOBAL_SPEC = (extractSpecIdAmended p).getD GLOBAL_SPEC := by
  simp [extract_spec_id, extractSpecIdAmended, extractSpecIdParts_eq_pairScan]

/-- C6: for every allowlist and every path, if some allowlist pattern
glob-matches the full path or its derived spec id (`is_allowed`), then the
path appears in neither the `missing_memory` nor the `missing_evidence` list
of the assembled report, whatever the reference index, the evidence set and
the spec filter are. -/
theorem c6_allowlist_suppression (references : RefIndex) (entriesScanned : Nat)
    (evidenceFiles : List Str) (sf allowlist : List Str) (path : Str)
    (h : is_allowed path allowlist = true) :
    (∀ item ∈ (buildReportCore references entriesScanned evidenceFiles sf allowlist).missing_memory,
      item.path ≠ path) ∧
    (∀ item ∈ (buildReportCore references entriesScanned evidenceFiles sf allowlist).missing_evidence,
      item.path ≠ path) := by
  constructor
  · intro item hitem
    simp only [buildReportCore] at hitem
    rw [List.mem_filterMap] at hitem
    obtain ⟨q, hq, hf⟩ := hitem
    by_cases hcond : ((refKeys references).contains q || is_allowed q allowlist) = true
    · rw [if_pos hcond] at hf
      cases hf
    · rw [if_neg hcond] at hf
      cases hf
      intro heq
      simp only [] at heq
      subst heq
      exact hcond (by simp [h])
  · intro item hitem
    simp only [buildReportCore] at hitem
    rw [List.mem_filterMap] at hitem
    obtain ⟨kv, hq, hf⟩ := hitem
    by_cases hcond : (evidenceFiles.contains kv.1 || is_allowed kv.1 allowlist) = true
    · rw [if_pos hcond] at hf
      cases hf
    · rw [if_neg hcond] at hf
      cases hf
      intro heq
      simp only [] at heq
      rw [heq] at hcond
      exact hcond (by simp [h])

/-- C7: symmetry invariant — a path that is simultaneously a key of the
reference index and a member of the evidence set appears in neither drift
list of the resulting report. -/
theorem c7_symmetry (references : RefIndex) (entriesScanned : Nat)
    (evidenceFiles : List Str) (sf allowlist : List Str) (path : Str)
    (h1 : path ∈ refKeys references) (h2 : path ∈ evidenceFiles) :
    (∀ item ∈ (buildReportCore references entriesScanned evidenceFiles sf allowlist).missing_memory,
      item.path ≠ path) ∧
    (∀ item ∈ (buildReportCore references entriesScanned evidenceFiles sf allowlist).missing_evidence,
      item.path ≠ path) := by
  constructor
  · intro item hitem
    simp only [buildReportCore] at hitem
    rw [List.mem_filterMap] at hitem
    obtain ⟨q, hq, hf⟩ := hitem
    by_cases hcond : ((refKeys references).contains q || is_allowed q allowlist) = true
    · rw [if_pos hcond] at hf
      cases hf
    · rw [if_neg hcond] at hf
      cases hf
      intro heq
      simp only [] at heq
      subst heq
      exact hcond (by simp [h1])
  · intro item hitem
    simp only [buildReportCore] at hitem
    rw [List.mem_filterMap] at hitem
    obtain ⟨kv, hq, hf⟩ := hitem
    by_cases hcond : (evidenceFiles.contains kv.1 || is_allowed kv.1 allowlist) = true
    · rw [if_pos hcond] at hf
      cases hf
    · rw [if_neg hcond] at hf
      cases hf
      intro heq
      simp only [] at heq
      rw [heq] at hcond
      exact hcond (by simp [h2])

theorem globMatch_star (s : Str) : globMatch ['*'] s = true := by
  induction s with
  | nil => simp [globMatch]
  | cons c t ih => simp [globMatch, ih]

/-- Witness for C6 at a concrete input: the pattern `*` allowlists the
evidence file `c2Path`, which would otherwise be drift. -/
theorem c6_witness :
    (∀ item ∈ (buildReportCore [] 0 [c2Path] [] [['*']]).missing_memory, item.path ≠ c2Path) ∧
    (∀ item ∈ (buildReportCore [] 0 [c2Path] [] [['*']]).missing_evidence, item.path ≠ c2Path) :=
  c6_allowlist_suppression [] 0 [c2Path] [] [['*']] c2Path
    (by simp [is_allowed, globMatch_star])

def c7wRefs : RefIndex := [(c2Path, [⟨some "m1".toList, none, []⟩])]

/-- Witness for C7 at a concrete input: `c2Path` is both referenced and
present. -/
theorem c7_witness :
    (∀ item ∈ (buildReportCore c7wRefs 1 [c2Path] [] []).missing_memory, item.path ≠ c2Path) ∧
    (∀ item ∈ (buildReportCore c7wRefs 1 [c2Path] [] []).missing_evidence, item.path ≠ c2Path) :=
  c7_symmetry c7wRefs 1 [c2Path] [] [] c2Path (by decide) (by decide)

/-- A raw export line that triggers the malformed-record error: non-blank
after stripping, and `json.loads` fails on it. -/
def lineBad (parse : Str → Option PyRecord) (raw : Str) : Bool :=
  !(stripWhile isPySpace raw).isEmpty && (parse (stripWhile isPySpace raw)).isNone

theorem collectAux_error_of_bad (parse : Str → Option PyRecord) (sf : List Str)
    (lines : List Str) (hbad : lines.any (lineBad parse) = true) :
    ∀ (n : Nat) (idx : RefIndex) (scanned : Nat),
      collectAux parse sf lines n idx scanned =
        .error (.invalidJson (n + lines.findIdx (lineBad parse))) := by
  induction lines with
  | nil => simp at hbad
  | cons l rest ih =>
    intro n idx scanned
    by_cases hb : lineBad parse l = true
    · have hb' := hb
      simp only [lineBad, Bool.and_eq_true, Bool.not_eq_true'] at hb'
      obtain ⟨hne, hpn⟩ := hb'
      have hpn' : parse (stripWhile isPySpace l) = none := Option.isNone_iff_eq_none.mp hpn
      simp only [collectAux, hne, hpn']
      simp [List.findIdx_cons, hb]
    · have hbadrest : rest.any (lineBad parse) = true := by
        simp only [List.any_cons, Bool.or_eq_true] at hbad
        rcases hbad with hx | hx
        · exact absurd hx hb
        · exact hx
      have hbf : lineBad parse l = false := by
        revert hb
        cases lineBad parse l <;> simp
      have hfi : (l :: rest).findIdx (lineBad parse) = rest.findIdx (lineBad parse) + 1 := by
        simp [List.findIdx_cons, hbf]
      have harith : n + 1 + rest.findIdx (lineBad parse) =
          n + (rest.findIdx (lineBad parse) + 1) := by omega
      by_cases hblank : (stripWhile isPySpace l).isEmpty = true
      · simp only [collectAux, hblank, if_true]
        rw [ih hbadrest (n + 1) idx scanned, hfi, harith]
      · have hblank' : (stripWhile isPySpace l).isEmpty = false := by
          revert hblank
          cases (stripWhile isPySpace l).isEmpty <;> simp
        have hparse : ∃ r, parse (stripWhile isPySpace l) = some r := by
          cases hp : parse (stripWhile isPySpace l) with
          | none => exact absurd (by simp [lineBad, hblank', hp]) (hb : ¬_)
          | some r => exact ⟨r, rfl⟩
        obtain ⟨r, hr⟩ := hparse
        simp only [collectAux, hblank', Bool.false_eq_true, if_false, hr]
        by_cases hms : (recordMatches sf (r.content.getD [])).isEmpty = true
        · rw [if_pos hms, ih hbadrest (n + 1) idx (scanned + 1), hfi, harith]
        · rw [if_neg hms, ih hbadrest (n + 1) _ (scanned + 1), hfi, harith]

/-- C8: when the memory export contains a non-blank line that fails to
parse, the run exits with status 2 and emits no report (neither human nor
JSON), `build_report` raises the malformed-record error carrying the 1-based
number of the first such line, and the error message is the literal
`Invalid JSON on line ` followed by the decimal rendering of that number. -/
theorem c8_malformed_line_fatal (parse : Str → Option PyRecord)
    (memLines : List Str) (fsExists : Bool) (fs : List Str)
    (specArgs allowlist : List Str)
    (hbad : memLines.any (lineBad parse) = true) :
    runMain parse true memLines fsExists fs specArgs allowlist = (2, none) ∧
    build_report parse true memLines fsExists fs (dedupFirst (specArgs.map upperStr)) allowlist =
      .error (.invalidJson (memLines.findIdx (lineBad parse) + 1)) ∧
    errorMessage (.invalidJson (memLines.findIdx (lineBad parse) + 1)) =
      "Invalid JSON on line ".toList ++
        Nat.toDigits 10 (memLines.findIdx (lineBad parse) + 1) := by
  have hcol : collect_memory_references parse (dedupFirst (specArgs.map upperStr)) memLines =
      .error (.invalidJson (1 + memLines.findIdx (lineBad parse))) :=
    collectAux_error_of_bad parse _ memLines hbad 1 [] 0
  have hbr : build_report parse true memLines fsExists fs
      (dedupFirst (specArgs.map upperStr)) allowlist =
      .error (.invalidJson (memLines.findIdx (lineBad parse) + 1)) := by
    simp only [build_report, Bool.not_true, Bool.false_eq_true, if_false, hcol]
    rw [Nat.add_comm]
  refine ⟨?_, hbr, rfl⟩
  simp only [runMain, hbr]

def c8wLine : Str := "not json".toList

def c8wParse : Str → Option PyRecord := fun _ => none

/-- Witness for C8 at a concrete input: a one-line export whose line parses
as nothing. -/
theorem c8_witness :
    runMain c8wParse true [c8wLine] true [] [] [] = (2, none) ∧
    build_report c8wParse true [c8wLine] true [] (dedupFirst (([] : List Str).map upperStr)) [] =
      .error (.invalidJson ([c8wLine].findIdx (lineBad c8wParse) + 1)) ∧
    errorMessage (.invalidJson ([c8wLine].findIdx (lineBad c8wParse) + 1)) =
      "Invalid JSON on line ".toList ++
        Nat.toDigits 10 ([c8wLine].findIdx (lineBad c8wParse) + 1) :=
  c8_malformed_line_fatal c8wParse [c8wLine] true [] [] [] (by decide)

/-- A raw export line that is blank, or parses to a record without a
`content` field. -/
def lineBenign (parse : Str → Option PyRecord) (raw : Str) : Bool :=
  (stripWhile isPySpace raw).isEmpty ||
    (match parse (stripWhile isPySpace raw) with
     | some r => r.content.isNone
     | none => false)

theorem collectAux_benign (parse : Str → Option PyRecord) (sf : List Str)
    (lines : List Str) (hben : lines.all (lineBenign parse) = true) :
    ∀ (n : Nat) (idx : RefIndex) (scanned : Nat),
      collectAux parse sf lines n idx scanned =
        .ok (idx, scanned + lines.countP (fun s => !(stripWhile isPySpace s).isEmpty)) := by
  induction lines with
  | nil => intro n idx sc; simp [collectAux]
  | cons l rest ih =>
    intro n idx sc
    simp only [List.all_cons, Bool.and_eq_true] at hben
    obtain ⟨hl, hrest⟩ := hben
    by_cases hblank : (stripWhile isPySpace l).isEmpty = true
    · simp only [collectAux, hblank, if_true]
      rw [ih hrest]
      have hc : (l :: rest).countP (fun s => !(stripWhile isPySpace s).isEmpty) =
          rest.countP (fun s => !(stripWhile isPySpace s).isEmpty) := by
        simp [List.countP_cons, hblank]
      rw [hc]
    · have hbf : (stripWhile isPySpace l).isEmpty = false := by
        revert hblank
        cases (stripWhile isPySpace l).isEmpty <;> simp
      have hsome : ∃ r, parse (stripWhile isPySpace l) = some r ∧ r.content = none := by
        simp only [lineBenign, hbf, Bool.false_or] at hl
        cases hp : parse (stripWhile isPySpace l) with
        | none => rw [hp] at hl; simp at hl
        | some r =>
          rw [hp] at hl
          exact ⟨r, rfl, Option.isNone_iff_eq_none.mp hl⟩
      obtain ⟨r, hr, hrc⟩ := hsome
      simp only [collectAux, hbf, Bool.false_eq_true, if_false, hr, hrc]
      have hrm : recordMatches sf ((none : Option Str).getD []) = [] := rfl
      rw [hrm]
      simp only [List.isEmpty_nil, if_true]
      rw [ih hrest]
      have hc : (l :: rest).countP (fun s => !(stripWhile isPySpace s).isEmpty) =
          rest.countP (fun s => !(stripWhile isPySpace s).isEmpty) + 1 := by
        simp [List.countP_cons, hbf]
      rw [hc]
      have harith : sc + 1 + rest.countP (fun s => !(stripWhile isPySpace s).isEmpty) =
          sc + (rest.countP (fun s => !(stripWhile isPySpace s).isEmpty) + 1) := by omega
      rw [harith]

/-- C10: records lacking a `content` field raise no error — over any export
whose non-blank lines all parse to records without a `content` field,
collection succeeds, every such record is counted in
`memory_entries_scanned` (the count of non-blank lines), and the reference
index stays empty. -/
theorem c10_missing_content_is_benign (parse : Str → Option PyRecord) (sf : List Str)
    (lines : List Str) (hben : lines.all (lineBenign parse) = true) :
    collect_memory_references parse sf lines =
      .ok ([], lines.countP (fun s => !(stripWhile isPySpace s).isEmpty)) := by
  have := collectAux_benign parse sf lines hben 1 [] 0
  simpa [collect_memory_references] using this

def c10wParse : Str → Option PyRecord :=
  fun s => if s = "rec".toList then some ⟨some "m9".toList, none, none⟩ else none

/-- Witness for C10 at a concrete input: one content-less record plus one
blank line scan to a count of one and an empty index. -/
theorem c10_witness :
    collect_memory_references c10wParse [] ["rec".toList, "  ".toList] =
      .ok ([], (["rec".toList, "  ".toList]).countP
        (fun s => !(stripWhile isPySpace s).isEmpty)) :=
  c10_missing_content_is_benign c10wParse [] ["rec".toList, "  ".toList] (by decide)

theorem charEqOfToNat {x y : Char} (h : x.toNat = y.toNat) : x = y := by
  apply Char.ext
  exact UInt32.ext_iff.mpr h

theorem strLt_nil_right (a : Str) : strLt a [] = false := by
  cases a <;> rfl

theorem strLt_asymm : ∀ {a b : Str}, strLt a b = true → strLt b a = false := by
  intro a
  induction a with
  | nil =>
    intro b h
    cases b with
    | nil => simp [strLt] at h
    | cons y ys => exact strLt_nil_right _
  | cons x xs ih =>
    intro b h
    cases b with
    | nil => simp [strLt] at h
    | cons y ys =>
      simp only [strLt] at h ⊢
      by_cases hxy : x.toNat < y.toNat
      · rw [if_neg (by omega : ¬ y.toNat < x.toNat), if_pos hxy]
      · by_cases hyx : y.toNat < x.toNat
        · rw [if_neg hxy, if_pos hyx] at h
          exact absurd h (by simp)
        · rw [if_neg hxy, if_neg hyx] at h
          rw [if_neg hyx, if_neg hxy]
          exact ih h

theorem strLt_conn : ∀ {a b : Str}, strLt a b = false → strLt b a = false → a = b := by
  intro a
  induction a with
  | nil =>
    intro b h1 _
    cases b with
    | nil => rfl
    | cons y ys => simp [strLt] at h1
  | cons x xs ih =>
    intro b h1 h2
    cases b with
    | nil => simp [strLt] at h2
    | cons y ys =>
      simp only [strLt] at h1 h2
      by_cases hxy : x.toNat < y.toNat
      · rw [if_pos hxy] at h1
        exact absurd h1 (by simp)
      · by_cases hyx : y.toNat < x.toNat
        · rw [if_pos hyx] at h2
          exact absurd h2 (by simp)
        · rw [if_neg hxy, if_neg hyx] at h1
          have hx : x = y := charEqOfToNat (by omega)
          rw [hx, ih h1 (by rw [if_neg hyx, if_neg hxy] at h2; exact h2)]

theorem strLe_trans : ∀ {a b c : Str}, strLt b a = false → strLt c b = false → strLt c a = false := by
  intro a
  induction a with
  | nil =>
    intro b c _ _
    exact strLt_nil_right c
  | cons x xs ih =>
    intro b c h1 h2
    cases b with
    | nil => simp [strLt] at h1
    | cons y ys =>
      cases c with
      | nil => simp [strLt] at h2
      | cons z zs =>
        simp only [strLt] at h1 h2 ⊢
        by_cases hyx : y.toNat < x.toNat
        · rw [if_pos hyx] at h1
          exact absurd h1 (by simp)
        · by_cases hzy : z.toNat < y.toNat
          · rw [if_pos hzy] at h2
            exact absurd h2 (by simp)
          · by_cases hzx : z.toNat < x.toNat
            · omega
            · rw [if_neg hzx]
              by_cases hxz : x.toNat < z.toNat
              · rw [if_pos hxz]
              · rw [if_neg hxz]
                have hxy : ¬ x.toNat < y.toNat := by omega
                have hyz : ¬ y.toNat < z.toNat := by omega
                rw [if_neg hyx, if_neg hxy] at h1
                rw [if_neg hzy, if_neg hyz] at h2
                exact ih h1 h2

/-- The ascending order `sorted` uses: `a` before `b` when `b` is not
strictly below `a`. -/
def SLe (a b : Str) : Prop := strLt b a = false

theorem boolFalseOfNotTrue {b : Bool} (h : ¬ b = true) : b = false := by
  cases b
  · rfl
  · exact absurd rfl h

theorem mem_insertSortedStr {x z : Str} :
    ∀ {l : List Str}, z ∈ insertSortedStr x l ↔ z = x ∨ z ∈ l := by
  intro l
  induction l with
  | nil => simp [insertSortedStr]
  | cons y ys ih =>
    simp only [insertSortedStr]
    split
    · simp only [List.mem_cons, ih]
      tauto
    · simp only [List.mem_cons]

theorem insertSortedStr_perm (x : Str) (l : List Str) :
    List.Perm (insertSortedStr x l) (x :: l) := by
  induction l with
  | nil => exact List.Perm.refl _
  | cons y ys ih =>
    simp only [insertSortedStr]
    split
    · exact (ih.cons y).trans (List.Perm.swap x y ys)
    · exact List.Perm.refl _

theorem sorted_insertSortedStr {x : Str} :
    ∀ {l : List Str}, l.Sorted SLe → (insertSortedStr x l).Sorted SLe := by
  intro l
  induction l with
  | nil =>
    intro _
    simp [insertSortedStr, List.sorted_singleton]
  | cons y ys ih =>
    intro h
    rw [List.sorted_cons] at h
    obtain ⟨hy, hys⟩ := h
    simp only [insertSortedStr]
    split
    next hcond =>
      rw [List.sorted_cons]
      refine ⟨?_, ih hys⟩
      intro z hz
      rcases mem_insertSortedStr.mp hz with hzx | hzy
      · subst hzx
        exact strLt_asymm hcond
      · exact hy z hzy
    next hcond =>
      rw [List.sorted_cons]
      have hxy : strLt y x = false := boolFalseOfNotTrue hcond
      refine ⟨?_, List.sorted_cons.mpr ⟨hy, hys⟩⟩
      intro z hz
      rcases List.mem_cons.mp hz with hzy | hzys
      · subst hzy
        exact hxy
      · exact strLe_trans hxy (hy z hzys)

theorem sortStrs_perm (l : List Str) : List.Perm (sortStrs l) l := by
  induction l with
  | nil => exact List.Perm.refl _
  | cons x xs ih =>
    exact (insertSortedStr_perm x (sortStrs xs)).trans (ih.cons x)

theorem sortStrs_sorted (l : List Str) : (sortStrs l).Sorted SLe := by
  induction l with
  | nil => simp [sortStrs]
  | cons x xs ih => exact sorted_insertSortedStr ih

theorem sortStrs_eq_of_perm {l₁ l₂ : List Str} (h : List.Perm l₁ l₂) :
    sortStrs l₁ = sortStrs l₂ := by
  haveI : IsAntisymm Str SLe := ⟨fun a b h1 h2 => strLt_conn h2 h1⟩
  exact List.eq_of_perm_of_sorted
    ((sortStrs_perm l₁).trans (h.trans (sortStrs_perm l₂).symm))
    (sortStrs_sorted l₁) (sortStrs_sorted l₂)

theorem mem_dedupAux {z : Str} :
    ∀ (seen l : List Str), z ∈ dedupAux seen l ↔ z ∈ l ∧ ¬ z ∈ seen := by
  intro seen l
  induction l generalizing seen with
  | nil => simp [dedupAux]
  | cons x xs ih =>
    simp only [dedupAux]
    split
    next hc =>
      have hxseen : x ∈ seen := List.elem_iff.mp hc
      rw [ih seen]
      simp only [List.mem_cons]
      constructor
      · rintro ⟨hz, hns⟩
        exact ⟨Or.inr hz, hns⟩
      · rintro ⟨hz | hz, hns⟩
        · subst hz
          exact absurd hxseen hns
        · exact ⟨hz, hns⟩
    next hc =>
      have hxseen : ¬ x ∈ seen := fun hm => hc (List.elem_iff.mpr hm)
      simp only [List.mem_cons, ih (x :: seen), List.mem_cons]
      constructor
      · rintro (hz | ⟨hz, hns⟩)
        · subst hz
          exact ⟨Or.inl rfl, hxseen⟩
        · exact ⟨Or.inr hz, fun hm => hns (Or.inr hm)⟩
      · rintro ⟨hz | hz, hns⟩
        · exact Or.inl hz
        · by_cases hzx : z = x
          · exact Or.inl hzx
          · exact Or.inr ⟨hz, fun hm => (by rcases hm with h | h; exact hzx h; exact hns h)⟩

theorem nodup_dedupAux : ∀ (seen l : List Str), (dedupAux seen l).Nodup := by
  intro seen l
  induction l generalizing seen with
  | nil => simp [dedupAux]
  | cons x xs ih =>
    simp only [dedupAux]
    split
    · exact ih seen
    · rw [List.nodup_cons]
      refine ⟨?_, ih (x :: seen)⟩
      intro hx
      exact ((mem_dedupAux (x :: seen) xs).mp hx).2 (List.mem_cons_self x seen)

theorem mem_dedupFirst {z : Str} {l : List Str} : z ∈ dedupFirst l ↔ z ∈ l := by
  rw [dedupFirst, mem_dedupAux]
  simp

theorem nodup_dedupFirst (l : List Str) : (dedupFirst l).Nodup := nodup_dedupAux [] l

theorem dedupFirst_perm_of_perm {l₁ l₂ : List Str} (h : List.Perm l₁ l₂) :
    List.Perm (dedupFirst l₁) (dedupFirst l₂) := by
  rw [List.perm_ext_iff_of_nodup (nodup_dedupFirst l₁) (nodup_dedupFirst l₂)]
  intro a
  rw [mem_dedupFirst, mem_dedupFirst]
  exact h.mem_iff

theorem contains_eq_of_perm {l₁ l₂ : List Str} (h : List.Perm l₁ l₂) (a : Str) :
    l₁.contains a = l₂.contains a := by
  cases h1 : l₁.contains a <;> cases h2 : l₂.contains a
  · rfl
  · have hm : l₁.contains a = true := List.elem_iff.mpr (h.mem_iff.mpr (List.elem_iff.mp h2))
    rw [h1] at hm
    simp at hm
  · have hm : l₂.contains a = true := List.elem_iff.mpr (h.mem_iff.mp (List.elem_iff.mp h1))
    rw [h2] at hm
    simp at hm
  · rfl

theorem buildReportCore_perm_evidence {e₁ e₂ : List Str} (hperm : List.Perm e₁ e₂)
    (refs : RefIndex) (sc : Nat) (sf allowlist : List Str) :
    buildReportCore refs sc e₁ sf allowlist = buildReportCore refs sc e₂ sf allowlist := by
  unfold buildReportCore
  simp only [sortStrs_eq_of_perm hperm, hperm.length_eq, contains_eq_of_perm hperm]

/-- C9: reconciliation is deterministic — the report is a pure function of
the memory records, the filesystem snapshot and the allowlist.  The one
run-to-run nondeterminism of the real program is the order in which the
directory walk enumerates the evidence files (they are collected into a set
and only ever sorted, counted or membership-tested), so determinism is
stated as: two runs whose walks list the same snapshot in any two orders
produce equal `DriftReport`s and byte-identical serialized JSON reports. -/
theorem c9_report_deterministic (parse : Str → Option PyRecord)
    (memExists : Bool) (memLines : List Str) (fsExists : Bool)
    (fs₁ fs₂ : List Str) (specArgs allowlist : List Str)
    (hperm : List.Perm fs₁ fs₂) :
    runMain parse memExists memLines fsExists fs₁ specArgs allowlist =
      runMain parse memExists memLines fsExists fs₂ specArgs allowlist ∧
    runMainJson parse memExists memLines fsExists fs₁ specArgs allowlist =
      runMainJson parse memExists memLines fsExists fs₂ specArgs allowlist := by
  have hev : List.Perm (collect_evidence_files fs₁ (dedupFirst (specArgs.map upperStr)))
      (collect_evidence_files fs₂ (dedupFirst (specArgs.map upperStr))) := by
    unfold collect_evidence_files
    exact dedupFirst_perm_of_perm (hperm.filter _)
  have hbr : build_report parse memExists memLines fsExists fs₁
        (dedupFirst (specArgs.map upperStr)) allowlist =
      build_report parse memExists memLines fsExists fs₂
        (dedupFirst (specArgs.map upperStr)) allowlist := by
    unfold build_report
    cases hcm : collect_memory_references parse (dedupFirst (specArgs.map upperStr)) memLines with
    | error e => rfl
    | ok c => simp only [buildReportCore_perm_evidence hev]
  refine ⟨?_, ?_⟩
  · simp only [runMain, hbr]
  · simp only [runMainJson, runMain, hbr]

/-- Witness for C9 at a concrete input: the same two evidence files listed
in both orders. -/
theorem c9_witness :
    runMain c2Parse true [c2Line] true [c2Path, c5Path] [] [] =
      runMain c2Parse true [c2Line] true [c5Path, c2Path] [] [] ∧
    runMainJson c2Parse true [c2Line] true [c2Path, c5Path] [] [] =
      runMainJson c2Parse true [c2Line] true [c5Path, c2Path] [] [] :=
  c9_report_deterministic c2Parse true [c2Line] true [c2Path, c5Path] [c5Path, c2Path] [] []
    (by decide)
